import Mathlib

/-!
Verification of the conditional value-resolution layer of the HTDX
templating engine (`src/tdom/conditional.py`).

The embedding models Python values flowing through this module as the
inductive type `Tdom.Val`.  A zero-argument callable (a deferred
computation) is modelled symbolically by its observable behaviour at
invocation: it either returns a value (`callable id result`) or raises
(`callableRaise id err`); the `id` field is instrumentation identity used
to state laziness (call-count) properties.  Fallible resolution is
`Except String Val`, where an `error e` models a Python exception with
payload `e` propagating out of a deferred computation.
-/

namespace Tdom

/-- Python values handled by `conditional.py`:
`none` is Python `None`; `unset` is the module-private sentinel object
`_UNSET`; `str`/`bool`/`int` are plain data; `markup s` is a
`markupsafe.Markup` trusted string with content `s` (its `__html__`
returns itself); `htmlObj h` is any other object exposing the
`__html__` rendering hook (`HasHTMLDunder`) whose hook returns `h`;
`callable id result` is a zero-argument callable returning `result` when
invoked; `callableRaise id err` is a zero-argument callable raising an
exception `err` when invoked. -/
inductive Val where
  | none : Val
  | unset : Val
  | str (s : String) : Val
  | bool (b : Bool) : Val
  | int (n : Int) : Val
  | markup (s : String) : Val
  | htmlObj (h : String) : Val
  | callable (id : Nat) (result : Val) : Val
  | callableRaise (id : Nat) (err : String) : Val
deriving DecidableEq, Repr

/-- `_UNSET: object = object()` — sentinel distinguishing "no default
provided" from an explicit `None`/falsy value. -/
def _UNSET : Val := Val.unset

/-- Python's `x is _UNSET` identity test: the sentinel is a unique private
object, so identity with it holds exactly for the sentinel itself. -/
def isUnset : Val → Bool
  | Val.unset => true
  | _ => false

/-- Python's `callable(val)` test on a modelled value. -/
def isCallable : Val → Bool
  | Val.callable _ _ => true
  | Val.callableRaise _ _ => true
  | _ => false

/-- Invocation `val()` of a callable value: produces its result or raises.
The code only invokes under the `callable(val)` guard, so the remaining
cases are unreachable there. -/
def invoke : Val → Except String Val
  | Val.callable _ r => Except.ok r
  | Val.callableRaise _ e => Except.error e
  | v => Except.ok v

/-- `_resolve_value(val) = val() if callable(val) else val`. -/
def _resolve_value (val : Val) : Except String Val :=
  if isCallable val then invoke val else Except.ok val

/-- markupsafe escaping of one character: `&`, `<`, `>`, `'`, `"` become
entity references, every other character is kept. -/
def escapeChar (c : Char) : String :=
  if c = '&' then "&amp;"
  else if c = '<' then "&lt;"
  else if c = '>' then "&gt;"
  else if c = '\'' then "&#39;"
  else if c = '"' then "&#34;"
  else String.singleton c

/-- `markupsafe.escape` on a string: substitute the HTML metacharacters.
(markupsafe replaces `&` before the other metacharacters, which is
equivalent to this single character-wise pass over the input.) -/
def escape (s : String) : String :=
  String.join (s.toList.map escapeChar)

/-- Python `str()` of the modelled values that can reach the fallthrough
arm of `_to_markup` (not `None` and without an `__html__` hook).  `str` of
a generic object/function is an address-bearing repr; the address is
elided as a fixed placeholder, which no claim depends on. -/
def pyStr : Val → String
  | Val.none => "None"
  | Val.unset => "<object>"
  | Val.str s => s
  | Val.bool b => if b then "True" else "False"
  | Val.int n => toString n
  | Val.markup s => s
  | Val.htmlObj _ => "<object>"
  | Val.callable _ _ => "<function>"
  | Val.callableRaise _ _ => "<function>"

/-- `_to_markup(result)`: `None` becomes empty markup; a value exposing
`__html__` (both `Markup` itself and any `HasHTMLDunder` object) is
wrapped as markup without re-escaping; anything else is stringified and
escaped.  The returned `Markup` is modelled as its underlying string. -/
def _to_markup : Val → String
  | Val.none => ""
  | Val.markup s => s
  | Val.htmlObj h => h
  | v => escape (pyStr v)

/-- The mutable state of a `Conditions` builder: the ordered branch list
`_cases` and the `_default` slot (initially the `_UNSET` sentinel). -/
structure Conditions where
  _cases : List (Bool × Val)
  _default : Val
deriving DecidableEq, Repr

/-- `Conditions.__init__`: empty branch list, default unset. -/
def Conditions.init : Conditions :=
  { _cases := [], _default := _UNSET }

/-- `when(condition, value)`: append a branch, return the instance. -/
def Conditions.when (c : Conditions) (condition : Bool) (value : Val) : Conditions :=
  { c with _cases := c._cases ++ [(condition, value)] }

/-- `default(value)`: set the fallback, return the instance. -/
def Conditions.default (c : Conditions) (value : Val) : Conditions :=
  { c with _default := value }

/-- The loop body of `Conditions._resolve`: scan the remaining cases for
the first truthy condition; when the list is exhausted, resolve the
default if it was set, else return `None`. -/
def _resolveFrom : List (Bool × Val) → Val → Except String Val
  | [], d => if isUnset d then Except.ok Val.none else _resolve_value d
  | (c, v) :: rest, d => if c then _resolve_value v else _resolveFrom rest d

/-- `Conditions._resolve`. -/
def Conditions._resolve (c : Conditions) : Except String Val :=
  _resolveFrom c._cases c._default

/-- `Conditions.__html__(self) = _to_markup(self._resolve())`; an
exception raised inside `_resolve` propagates. -/
def Conditions.__html__ (c : Conditions) : Except String String :=
  match c._resolve with
  | Except.ok v => Except.ok (_to_markup v)
  | Except.error e => Except.error e

/-- `cond(*pairs, default=_UNSET)`.  The optional keyword argument is
modelled as an explicit second argument; callers pass `_UNSET` to mean
"no default argument given". -/
def cond : List (Bool × Val) → Val → Except String Val
  | [], default => if isUnset default then Except.ok Val.none else _resolve_value default
  | (condition, value) :: rest, default =>
      if condition then _resolve_value value else cond rest default

/-- The value of the first branch whose condition is truthy, if any. -/
def firstTruthy (cases : List (Bool × Val)) : Option Val :=
  (cases.find? (fun p => p.1)).map (fun p => p.2)

/-- The value a resolution selects for evaluation: the first truthy
branch's value, else the default when set, else nothing. -/
def select (cases : List (Bool × Val)) (d : Val) : Option Val :=
  match cases.find? (fun p => p.1) with
  | some p => some p.2
  | Option.none => if isUnset d then Option.none else some d

/-- Instrumentation: the ids of deferred computations that invoking
`_resolve_value` on this value would run (one callable, or nothing). -/
def callIds : Val → List Nat
  | Val.callable id _ => [id]
  | Val.callableRaise id _ => [id]
  | _ => []

/-- Ids run by evaluating an optionally selected value. -/
def optCallIds : Option Val → List Nat
  | some v => callIds v
  | Option.none => []

/-- Instrumented `_resolve_value`: same result, paired with the ids of
the deferred computations it invokes. -/
def _resolve_valueT (val : Val) : Except String Val × List Nat :=
  (_resolve_value val, callIds val)

/-- Instrumented resolution loop, shared by `Conditions._resolve` and
`cond` (their loops are the same code): same result, paired with the ids
of all deferred computations invoked during the resolution. -/
def _resolveFromT : List (Bool × Val) → Val → Except String Val × List Nat
  | [], d => if isUnset d then (Except.ok Val.none, []) else _resolve_valueT d
  | (c, v) :: rest, d => if c then _resolve_valueT v else _resolveFromT rest d

/-- The eager-construction counterpart of `cond` from the refinement
claim: a fresh `Conditions`, one `when` per pair in order, `default`
called exactly when a default argument was given, then `_resolve`. -/
def buildConditions (pairs : List (Bool × Val)) (d : Val) : Conditions :=
  let c := pairs.foldl (fun acc p => acc.when p.1 p.2) Conditions.init
  if isUnset d then c else c.default d

/-- What `_resolve_value` would return for a non-raising value: the
callable's result, or the value itself. -/
def resultOf : Val → Val
  | Val.callable _ r => r
  | v => v

/-- A value reachable from user code: neither the value itself nor what
it resolves to is the private `_UNSET` sentinel (users cannot obtain the
sentinel, since it is module-private). -/
def noUnsetVal (v : Val) : Prop :=
  v ≠ Val.unset ∧ resultOf v ≠ Val.unset

instance (v : Val) : Decidable (noUnsetVal v) := by
  unfold noUnsetVal; infer_instance

/-- A builder operation on a `Conditions` instance. -/
inductive Op where
  | opWhen (condition : Bool) (value : Val) : Op
  | opDefault (value : Val) : Op
deriving DecidableEq, Repr

/-- Apply one builder operation. -/
def applyOp (c : Conditions) : Op → Conditions
  | Op.opWhen b v => c.when b v
  | Op.opDefault v => c.default v

/-- Apply a sequence of builder operations in order. -/
def applyOps (c : Conditions) (ops : List Op) : Conditions :=
  ops.foldl applyOp c

/- ------------------------------------------------------------------
Helper lemmas shared across the claim theorems.
------------------------------------------------------------------ -/

theorem isUnset_eq_true_iff (v : Val) : isUnset v = true ↔ v = Val.unset := by
  cases v <;> simp [isUnset]

theorem cond_eq_resolveFrom (cs : List (Bool × Val)) (d : Val) :
    cond cs d = _resolveFrom cs d := by
  induction cs with
  | nil => rfl
  | cons p rest ih =>
    obtain ⟨b, v⟩ := p
    cases b <;> simp [cond, _resolveFrom, ih]

theorem resolveFrom_eq_select (cs : List (Bool × Val)) (d : Val) :
    _resolveFrom cs d = (select cs d).elim (Except.ok Val.none) _resolve_value := by
  induction cs with
  | nil =>
    by_cases h : isUnset d <;> simp [_resolveFrom, select, List.find?, h]
  | cons p rest ih =>
    obtain ⟨b, v⟩ := p
    cases b with
    | false =>
      simp only [_resolveFrom, select, List.find?]
      simpa [select] using ih
    | true => simp [_resolveFrom, select, List.find?]

theorem resolveFromT_fst (cs : List (Bool × Val)) (d : Val) :
    (_resolveFromT cs d).1 = _resolveFrom cs d := by
  induction cs with
  | nil =>
    by_cases h : isUnset d <;> simp [_resolveFromT, _resolveFrom, _resolve_valueT, h]
  | cons p rest ih =>
    obtain ⟨b, v⟩ := p
    cases b <;> simp [_resolveFromT, _resolveFrom, _resolve_valueT, ih]

theorem resolveFromT_trace (cs : List (Bool × Val)) (d : Val) :
    (_resolveFromT cs d).2 = optCallIds (select cs d) := by
  induction cs with
  | nil =>
    by_cases h : isUnset d <;>
      simp [_resolveFromT, select, List.find?, optCallIds, _resolve_valueT, h]
  | cons p rest ih =>
    obtain ⟨b, v⟩ := p
    cases b with
    | false =>
      simp only [_resolveFromT, select, List.find?]
      simpa [select] using ih
    | true => simp [_resolveFromT, select, List.find?, optCallIds, _resolve_valueT]

theorem callIds_length_le_one (v : Val) : (callIds v).length ≤ 1 := by
  cases v <;> simp [callIds]

theorem resolve_value_ne_ok_unset (v : Val) (h : noUnsetVal v) :
    _resolve_value v ≠ Except.ok Val.unset := by
  obtain ⟨h1, h2⟩ := h
  cases v <;> simp_all [_resolve_value, isCallable, invoke, resultOf]

theorem resolve_value_error_iff (v : Val) (e : String) :
    _resolve_value v = Except.error e ↔ ∃ id, v = Val.callableRaise id e := by
  cases v <;> simp [_resolve_value, isCallable, invoke]

theorem foldl_when (pairs : List (Bool × Val)) (c : Conditions) :
    pairs.foldl (fun acc p => acc.when p.1 p.2) c
      = { _cases := c._cases ++ pairs, _default := c._default } := by
  induction pairs generalizing c with
  | nil => simp
  | cons p rest ih =>
    rw [List.foldl_cons, ih (c.when p.1 p.2)]
    simp [Conditions.when]

theorem buildConditions_eq (pairs : List (Bool × Val)) (d : Val) :
    buildConditions pairs d = { _cases := pairs, _default := d } := by
  unfold buildConditions
  rw [foldl_when]
  by_cases h : isUnset d
  · have hd : d = Val.unset := (isUnset_eq_true_iff d).mp h
    subst hd
    simp [Conditions.init, _UNSET, isUnset, Conditions.default]
  · simp [h, Conditions.init, Conditions.default, _UNSET]

theorem resolveFrom_no_truthy (cs : List (Bool × Val)) (d : Val)
    (hall : ∀ p ∈ cs, p.1 = false) :
    _resolveFrom cs d = if isUnset d then Except.ok Val.none else _resolve_value d := by
  induction cs with
  | nil => rfl
  | cons p rest ih =>
    obtain ⟨b, v⟩ := p
    have hb : b = false := hall (b, v) (List.mem_cons_self _ _)
    subst hb
    have hstep : _resolveFrom ((false, v) :: rest) d = _resolveFrom rest d := rfl
    rw [hstep]
    exact ih (fun q hq => hall q (List.mem_cons_of_mem _ hq))

theorem select_cases (cs : List (Bool × Val)) (d v : Val)
    (h : select cs d = some v) :
    (∃ b, (b, v) ∈ cs) ∨ (v = d ∧ isUnset d = false) := by
  unfold select at h
  cases hf : cs.find? (fun p => p.1) with
  | some p =>
    obtain ⟨pb, pv⟩ := p
    rw [hf] at h
    have hm : (pb, pv) ∈ cs := List.mem_of_find?_eq_some hf
    have hv : pv = v := by injection h
    exact Or.inl ⟨pb, hv ▸ hm⟩
  | none =>
    rw [hf] at h
    by_cases hu : isUnset d
    · simp [hu] at h
    · simp [hu] at h
      exact Or.inr ⟨h.symm, by simpa using hu⟩

/- ------------------------------------------------------------------
Claim theorems.
------------------------------------------------------------------ -/

/-- C1: for every branch sequence appended via `when` (and the same pairs
passed to `cond`), resolution returns the resolved value (invocation
result for callables) of the first branch whose condition is truthy,
regardless of how many later branches are also truthy. -/
theorem C1_first_truthy_wins (cs : List (Bool × Val)) (d v : Val)
    (h : firstTruthy cs = some v) :
    Conditions._resolve { _cases := cs, _default := d } = _resolve_value v
    ∧ cond cs d = _resolve_value v := by
  have hsel : select cs d = some v := by
    unfold firstTruthy at h
    obtain ⟨p, hfind, hpv⟩ := Option.map_eq_some'.mp h
    unfold select
    rw [hfind]
    exact congrArg some hpv
  constructor
  · show _resolveFrom cs d = _resolve_value v
    rw [resolveFrom_eq_select, hsel]
    rfl
  · rw [cond_eq_resolveFrom, resolveFrom_eq_select, hsel]
    rfl

/-- Witness for C1: the second branch is the first truthy one and wins
over a later truthy branch and the default. -/
theorem C1_witness :
    Conditions._resolve
        { _cases := [(false, Val.str "a"), (true, Val.str "b"), (true, Val.str "c")],
          _default := Val.str "d" }
      = Except.ok (Val.str "b") :=
  ((C1_first_truthy_wins
      [(false, Val.str "a"), (true, Val.str "b"), (true, Val.str "c")]
      (Val.str "d") (Val.str "b") (by decide)).1).trans rfl

/-- C2: `_to_markup` escapes the HTML metacharacters of plain data (the
string of a plain value goes through `escape`, so `"<b>"` yields
`"&lt;b&gt;"` and every metacharacter is substituted), returns empty
markup for `None`, and passes a value exposing the `__html__` rendering
hook (`Markup` trusted text or any `HasHTMLDunder` object) through
without re-escaping. -/
theorem C2_to_markup_escapes (s h : String) :
    _to_markup (Val.str "<b>") = "&lt;b&gt;"
    ∧ _to_markup Val.none = ""
    ∧ _to_markup (Val.str s) = escape s
    ∧ _to_markup (Val.markup s) = s
    ∧ _to_markup (Val.htmlObj h) = h
    ∧ _to_markup (Val.str "&<>\"'") = "&amp;&lt;&gt;&#34;&#39;" :=
  ⟨by decide, rfl, rfl, rfl, rfl, by decide⟩

/-- C3: during one resolution (the instrumented loop shared by
`Conditions._resolve` and `cond`), the ids of the deferred computations
invoked are exactly those of the selected value: at most one invocation
happens, an id not belonging to the selected value is invoked zero
times (so skipped earlier branches, later branches and an unselected
default are never invoked), and the instrumented loop computes the same
result as `Conditions._resolve` and `cond`. -/
theorem C3_laziness (cs : List (Bool × Val)) (d : Val) :
    (_resolveFromT cs d).2 = optCallIds (select cs d)
    ∧ (_resolveFromT cs d).2.length ≤ 1
    ∧ (∀ id, id ∉ optCallIds (select cs d) → List.count id (_resolveFromT cs d).2 = 0)
    ∧ (_resolveFromT cs d).1 = Conditions._resolve { _cases := cs, _default := d }
    ∧ (_resolveFromT cs d).1 = cond cs d := by
  have ht := resolveFromT_trace cs d
  refine ⟨ht, ?_, ?_, ?_, ?_⟩
  · rw [ht]
    cases hsel : select cs d with
    | none => simp [optCallIds]
    | some v => simpa [optCallIds] using callIds_length_le_one v
  · intro id hid
    rw [ht]
    exact List.count_eq_zero.mpr hid
  · rw [resolveFromT_fst]; rfl
  · rw [resolveFromT_fst, cond_eq_resolveFrom]

/-- Witness for C3: a skipped earlier branch's deferred computation (id
0) is never invoked when a later plain-data branch is selected. -/
theorem C3_witness :
    List.count 0
        (_resolveFromT [(false, Val.callable 0 (Val.str "a")), (true, Val.str "b")]
          Val.unset).2
      = 0 :=
  (C3_laziness [(false, Val.callable 0 (Val.str "a")), (true, Val.str "b")]
      Val.unset).2.2.1 0 (by decide)

/-- C4: when no branch condition is truthy, a set default (even a falsy
one) is resolved and returned exactly, with no coercion; with no default
ever set, resolution returns Python `None` (the absent marker), and the
rendering hook renders it as the empty string. -/
theorem C4_default_or_absent (cs : List (Bool × Val)) (d : Val)
    (hall : ∀ p ∈ cs, p.1 = false) :
    (isUnset d = false →
      Conditions._resolve { _cases := cs, _default := d } = _resolve_value d
      ∧ cond cs d = _resolve_value d)
    ∧ (isUnset d = true →
      Conditions._resolve { _cases := cs, _default := d } = Except.ok Val.none
      ∧ cond cs d = Except.ok Val.none
      ∧ Conditions.__html__ { _cases := cs, _default := d } = Except.ok "") := by
  have hr := resolveFrom_no_truthy cs d hall
  constructor
  · intro hu
    constructor
    · show _resolveFrom cs d = _resolve_value d
      rw [hr, if_neg (by simp [hu])]
    · rw [cond_eq_resolveFrom, hr, if_neg (by simp [hu])]
  · intro hu
    have h1 : Conditions._resolve { _cases := cs, _default := d } = Except.ok Val.none := by
      show _resolveFrom cs d = Except.ok Val.none
      rw [hr, if_pos (by simp [hu])]
    refine ⟨h1, ?_, ?_⟩
    · rw [cond_eq_resolveFrom, hr, if_pos (by simp [hu])]
    · simp [Conditions.__html__, h1, _to_markup]

/-- Witness for C4: an explicit falsy default (`False`) is returned
literally when no branch matches. -/
theorem C4_witness :
    Conditions._resolve { _cases := [(false, Val.str "a")], _default := Val.bool false }
      = Except.ok (Val.bool false) :=
  (((C4_default_or_absent [(false, Val.str "a")] (Val.bool false)
      (by decide)).1 (by decide)).1).trans rfl

/-- C5: `cond pairs default` computes the same resolved value as building
a fresh `Conditions`, appending each pair via `when` in order, calling
`default` exactly when a default argument was given, and resolving. -/
theorem C5_cond_refines_conditions (pairs : List (Bool × Val)) (d : Val) :
    cond pairs d = (buildConditions pairs d)._resolve := by
  rw [buildConditions_eq, cond_eq_resolveFrom]
  rfl

/-- C6 counterexample: the claim that the rendering hook returns the
resolved value itself, leaving escaping to the caller, is false — for
the plain branch value `"<b>"`, `_resolve` selects `"<b>"` but the
`__html__` hook already returns the escaped string `"&lt;b&gt;"`, so the
conversion to trusted text happens inside `Conditions`. -/
theorem C6_counterexample :
    Conditions._resolve { _cases := [(true, Val.str "<b>")], _default := Val.unset }
        = Except.ok (Val.str "<b>")
    ∧ Conditions.__html__ { _cases := [(true, Val.str "<b>")], _default := Val.unset }
        = Except.ok "&lt;b&gt;"
    ∧ "&lt;b&gt;" ≠ "<b>" := by
  have hs : _to_markup (Val.str "<b>") = "&lt;b&gt;" := by decide
  refine ⟨rfl, ?_, by decide⟩
  show Except.ok (_to_markup (Val.str "<b>")) = Except.ok "&lt;b&gt;"
  rw [hs]

/-- C6 amended: `Conditions.__html__` applies the trusted-text conversion
`_to_markup` (escaping plain data, passing trusted text through) to the
resolved branch or default value itself, inside the hook, rather than
returning the raw resolved value for the caller to convert. -/
theorem C6_hook_converts_inside (c : Conditions) :
    Conditions.__html__ c = Except.map _to_markup c._resolve := by
  cases hr : c._resolve <;> simp [Conditions.__html__, hr, Except.map]

/-- C7: the `_UNSET` sentinel is never observable through resolution
(for user-reachable branch values and defaults, neither `_resolve` nor
`cond` ever produces it); calling `default` twice keeps only the last
value; and once a default is set — even to a falsy value — no sequence
of further builder operations returns the instance to the no-default
state. -/
theorem C7_sentinel_invariants (cs : List (Bool × Val)) (d : Val)
    (h1 : ∀ p ∈ cs, noUnsetVal p.2) (h2 : d = Val.unset ∨ noUnsetVal d) :
    (Conditions._resolve { _cases := cs, _default := d } ≠ Except.ok Val.unset
      ∧ cond cs d ≠ Except.ok Val.unset)
    ∧ (∀ (c : Conditions) (v1 v2 : Val), (c.default v1).default v2 = c.default v2)
    ∧ (∀ (c : Conditions) (ops : List Op),
        isUnset c._default = false →
        (∀ v, Op.opDefault v ∈ ops → isUnset v = false) →
        isUnset (applyOps c ops)._default = false) := by
  have key : _resolveFrom cs d ≠ Except.ok Val.unset := by
    rw [resolveFrom_eq_select]
    cases hsel : select cs d with
    | none => simp
    | some v =>
      have hv : noUnsetVal v := by
        rcases select_cases cs d v hsel with ⟨b, hmem⟩ | ⟨hvd, hdu⟩
        · exact h1 (b, v) hmem
        · rcases h2 with hud | hnu
          · rw [hud] at hdu
            simp [isUnset] at hdu
          · exact hvd ▸ hnu
      simpa using resolve_value_ne_ok_unset v hv
  refine ⟨⟨key, by rw [cond_eq_resolveFrom]; exact key⟩, ?_, ?_⟩
  · intro c v1 v2
    rfl
  · intro c ops
    induction ops generalizing c with
    | nil =>
      intro hc _
      simpa [applyOps] using hc
    | cons op rest ih =>
      intro hc hops
      have hstep : isUnset (applyOp c op)._default = false := by
        cases op with
        | opWhen b v => simpa [applyOp, Conditions.when] using hc
        | opDefault v =>
          simpa [applyOp, Conditions.default] using hops v (List.mem_cons_self _ _)
      have hrest := ih (applyOp c op) hstep (fun v hv => hops v (List.mem_cons_of_mem _ hv))
      simpa [applyOps, List.foldl_cons] using hrest

/-- Witness for C7 at a concrete branch list with no default. -/
theorem C7_witness :
    Conditions._resolve { _cases := [(true, Val.str "x")], _default := Val.unset }
      ≠ Except.ok Val.unset :=
  (C7_sentinel_invariants [(true, Val.str "x")] Val.unset (by decide) (Or.inl rfl)).1.1

/-- C8: neither `Conditions._resolve` nor `cond` raises on its own — a
resolution produces an error exactly when the value it selected is a
deferred computation that raises, and the error payload propagates
unmodified. -/
theorem C8_error_propagation (cs : List (Bool × Val)) (d : Val) (e : String) :
    (Conditions._resolve { _cases := cs, _default := d } = Except.error e
      ↔ ∃ id, select cs d = some (Val.callableRaise id e))
    ∧ (cond cs d = Except.error e
      ↔ ∃ id, select cs d = some (Val.callableRaise id e)) := by
  have key : _resolveFrom cs d = Except.error e
      ↔ ∃ id, select cs d = some (Val.callableRaise id e) := by
    rw [resolveFrom_eq_select]
    cases hsel : select cs d with
    | none => simp
    | some v =>
      show _resolve_value v = Except.error e ↔ _
      rw [resolve_value_error_iff]
      constructor
      · rintro ⟨id, rfl⟩
        exact ⟨id, rfl⟩
      · rintro ⟨id, hv⟩
        injection hv with hv
        exact ⟨id, hv⟩
  exact ⟨key, by rw [cond_eq_resolveFrom]; exact key⟩

/-- Witness for C8: a selected raising computation's error escapes with
its payload intact. -/
theorem C8_witness :
    Conditions._resolve { _cases := [(true, Val.callableRaise 3 "boom")], _default := Val.unset }
      = Except.error "boom" :=
  ((C8_error_propagation [(true, Val.callableRaise 3 "boom")] Val.unset "boom").1).mpr
    ⟨3, by decide⟩

/-- C9: `_resolve_value` treats a value as a deferred computation exactly
when it is callable — for a callable it returns the invocation result
(so a callable intended as plain data is nevertheless invoked), and for
a non-callable it returns the value itself; no other marker
distinguishes data from thunks. -/
theorem C9_callable_dispatch (v : Val) :
    (isCallable v = true → _resolve_value v = invoke v)
    ∧ (isCallable v = false → _resolve_value v = Except.ok v)
    ∧ (∀ id r, _resolve_value (Val.callable id r) = Except.ok r) :=
  ⟨fun h => by simp [_resolve_value, h],
   fun h => by simp [_resolve_value, h],
   fun _ _ => rfl⟩

/-- Witness for C9: a callable carrying plain data is invoked and its
result, not the callable itself, is the resolved value. -/
theorem C9_witness :
    _resolve_value (Val.callable 7 (Val.str "data")) = Except.ok (Val.str "data") :=
  ((C9_callable_dispatch (Val.callable 7 (Val.str "data"))).1 (by decide)).trans rfl

/-- C10: when no pair matches, `cond` returns Python `None` both when no
default argument was given (`_UNSET`) and when the default was
explicitly `None` — the two cases are indistinguishable in the return
value. -/
theorem C10_absent_none_indistinguishable (pairs : List (Bool × Val))
    (hall : ∀ p ∈ pairs, p.1 = false) :
    cond pairs Val.unset = Except.ok Val.none
    ∧ cond pairs Val.none = Except.ok Val.none
    ∧ cond pairs Val.unset = cond pairs Val.none := by
  have h1 : cond pairs Val.unset = Except.ok Val.none := by
    rw [cond_eq_resolveFrom, resolveFrom_no_truthy _ _ hall]
    rfl
  have h2 : cond pairs Val.none = Except.ok Val.none := by
    rw [cond_eq_resolveFrom, resolveFrom_no_truthy _ _ hall]
    rfl
  exact ⟨h1, h2, h1.trans h2.symm⟩

/-- Witness for C10 at a concrete non-matching pair list. -/
theorem C10_witness :
    cond [(false, Val.str "a")] Val.unset = cond [(false, Val.str "a")] Val.none :=
  (C10_absent_none_indistinguishable [(false, Val.str "a")] (by decide)).2.2

end Tdom
